import Mathlib

/-!
Verification of the agent-sdk web session layer.

The frontend (web/frontend/src) is embedded directly from the TypeScript
source: the chat data model from types.ts, the live streaming handler and
the history replay from App.tsx, the WebSocket status/frame handling from
hooks/useWebSocket.ts.  The backend orchestrator (FastAPI AgentSession) is
not part of the shipped sources; where a claim depends on it, the
definitions are modelled from the specification and are marked as such in
their doc comments.

Non-semantic fields of the UI data model (the random `id : crypto.randomUUID()`
and the wall-clock `timestamp` of each chat message) are omitted from the
embedding: no claim mentions them and they differ on every run.
-/

namespace AgentWeb

/-- types.ts: status of a displayed tool call. -/
inductive ToolStatus where
  | running
  | completed
  | error
  deriving DecidableEq, Repr

/-- types.ts `ToolCall`: one tool invocation shown in the transcript.
`input` is the JSON tool input, treated as an opaque string. -/
structure ToolCall where
  id : String
  name : String
  input : String
  status : ToolStatus
  result : Option String := none
  isError : Option Bool := none
  deriving DecidableEq, Repr

/-- types.ts `ChatMessage.role`. -/
inductive Role where
  | user
  | assistant
  | tool
  | system
  | thinking
  deriving DecidableEq, Repr

/-- types.ts `ChatMessage` without the non-semantic `id`/`timestamp` fields. -/
structure ChatMsg where
  role : Role
  content : String
  toolCalls : Option (List ToolCall) := none
  deriving DecidableEq, Repr

/-- Server-to-client and client-to-server events of the wire protocol
(types.ts `MessageType` with the payload fields listed in the spec table).
The `cost` of a `result` event is a JSON number, embedded as a rational;
an absent field is `none`.  `history` frames carry a list of these events
and are processed by `handleHistory` below. -/
inductive WSEvent where
  | userMessage (content : String)
  | assistantText (text : String)
  | thinking (thinking : String)
  | toolUse (toolUseId toolName toolInput : String)
  | toolResult (toolUseId : String) (result : String) (isError : Bool)
  | approvalRequest (toolName toolInput : String)
  | result (cost : Option Rat)
  | error (message : String)
  | status (status : String) (sessionId : Option String)
  deriving DecidableEq, Repr

/-- JavaScript truthiness of `s.trim()`: the string contains at least one
non-whitespace character. -/
def hasNonWS (s : String) : Bool :=
  s.data.any (fun c => !c.isWhitespace)

/-- JavaScript truthiness of the `cost` payload field (`if (data.cost)`):
present and nonzero. -/
def costTruthy : Option Rat → Bool
  | none => false
  | some v => decide (v ≠ 0)

/-- Left-pad a string with zeros to the given length. -/
def padZeros (n : Nat) (s : String) : String :=
  String.mk (List.replicate (n - s.length) '0') ++ s

/-- JavaScript `(cost).toFixed(6)`: fixed-point rendering with six
fractional digits. -/
def toFixed6 (c : Rat) : String :=
  let n : Int := round (c * 1000000)
  let sign := if n < 0 then "-" else ""
  let m := n.natAbs
  sign ++ toString (m / 1000000) ++ "." ++ padZeros 6 (toString (m % 1000000))

/-- App.tsx component state that drives the transcript: the committed
message list plus the two streaming buffers
(`currentAssistantMessage`, `currentToolCalls`). -/
structure LiveState where
  msgs : List ChatMsg
  curText : String
  curTools : List ToolCall
  deriving DecidableEq, Repr

def LiveState.init : LiveState := ⟨[], "", []⟩

/-- App.tsx `flushAssistantMessage`: commit the accumulated assistant text
as one message if its trim is truthy, and clear the buffer. -/
def flushAssistant (st : LiveState) : LiveState :=
  { st with
    msgs := if hasNonWS st.curText then st.msgs ++ [⟨.assistant, st.curText, none⟩] else st.msgs
    curText := "" }

/-- App.tsx `flushToolCalls`: commit the accumulated tool calls as one
grouped tool message if nonempty (`prev.length > 0`), and clear the buffer. -/
def flushTools (st : LiveState) : LiveState :=
  { st with
    msgs := if st.curTools = [] then st.msgs else st.msgs ++ [⟨.tool, "", some st.curTools⟩]
    curTools := [] }

/-- App.tsx TOOL_RESULT case, per tool call: `tool.id === toolUseId ? {...} : tool`. -/
def applyToolResult (id res : String) (isErr : Bool) (t : ToolCall) : ToolCall :=
  if t.id = id then
    { t with
      status := if isErr then .error else .completed
      result := some res
      isError := some isErr }
  else t

/-- App.tsx `handleMessage`: the live streaming handler.  `user_message`,
`approval_request` and `status` events never reach it (the first has no
case in its switch, the latter two are intercepted in useWebSocket) and
leave the state unchanged. -/
def liveStep (st : LiveState) (e : WSEvent) : LiveState :=
  match e with
  | .assistantText t =>
      let st := flushTools st
      { st with curText := st.curText ++ t }
  | .thinking t =>
      let st := flushTools (flushAssistant st)
      { st with msgs := st.msgs ++ [⟨.thinking, t, none⟩] }
  | .toolUse id name input =>
      let st := flushAssistant st
      { st with curTools := st.curTools ++ [⟨id, name, input, .running, none, none⟩] }
  | .toolResult id res isErr =>
      { st with curTools := st.curTools.map (applyToolResult id res isErr) }
  | .error m =>
      let st := flushTools (flushAssistant st)
      { st with msgs := st.msgs ++ [⟨.system, "Error: " ++ m, none⟩] }
  | .result c =>
      let st := flushTools (flushAssistant st)
      match c with
      | some v =>
          if v ≠ 0 then
            { st with msgs := st.msgs ++ [⟨.system, "Completed. Cost: $" ++ toFixed6 v, none⟩] }
          else st
      | none => st
  | .userMessage _ => st
  | .approvalRequest _ _ => st
  | .status _ _ => st

/-- What App.tsx renders: committed messages, then the in-progress tool
group (if `currentToolCalls.length > 0`), then the streaming assistant
message (if `currentAssistantMessage` is truthy). -/
def renderLive (st : LiveState) : List ChatMsg :=
  st.msgs
    ++ (if st.curTools = [] then [] else [⟨.tool, "", some st.curTools⟩])
    ++ (if st.curText = "" then [] else [⟨.assistant, st.curText, none⟩])

/-- App.tsx `handleHistory` TOOL_RESULT case, inner search: update the
first tool call with the matching id inside one message's call list;
`none` when no call matches. -/
def replayUpdCalls (id res : String) (isErr : Bool) : List ToolCall → Option (List ToolCall)
  | [] => none
  | t :: rest =>
      if t.id = id then
        some ({ t with
                status := if isErr then .error else .completed
                result := some res
                isError := some isErr } :: rest)
      else
        (replayUpdCalls id res isErr rest).map (fun r => t :: r)

/-- App.tsx `handleHistory` TOOL_RESULT case: scan the restored messages
from the end, update the latest tool message containing a call with the
matching id, and stop; `none` when nothing matches. -/
def replayUpdMsgs (id res : String) (isErr : Bool) : List ChatMsg → Option (List ChatMsg)
  | [] => none
  | m :: rest =>
      match replayUpdMsgs id res isErr rest with
      | some rest2 => some (m :: rest2)
      | none =>
          if m.role = .tool then
            match m.toolCalls with
            | some calls =>
                (replayUpdCalls id res isErr calls).map
                  (fun calls2 => { m with toolCalls := some calls2 } :: rest)
            | none => none
          else none

/-- App.tsx `handleHistory`, one event: rebuild the transcript from one
persisted event.  Events with no case in its switch (`approval_request`,
`status`) are ignored. -/
def replayStep (acc : List ChatMsg) (e : WSEvent) : List ChatMsg :=
  match e with
  | .userMessage c => acc ++ [⟨.user, c, none⟩]
  | .assistantText t =>
      match acc.getLast? with
      | some last =>
          if last.role = .assistant then
            acc.dropLast ++ [{ last with content := last.content ++ t }]
          else acc ++ [⟨.assistant, t, none⟩]
      | none => acc ++ [⟨.assistant, t, none⟩]
  | .thinking t => acc ++ [⟨.thinking, t, none⟩]
  | .toolUse id name input =>
      let tc : ToolCall := ⟨id, name, input, .running, none, none⟩
      match acc.getLast? with
      | some last =>
          if last.role = .tool then
            acc.dropLast ++ [{ last with toolCalls := some (last.toolCalls.getD [] ++ [tc]) }]
          else acc ++ [⟨.tool, "", some [tc]⟩]
      | none => acc ++ [⟨.tool, "", some [tc]⟩]
  | .toolResult id res isErr =>
      match replayUpdMsgs id res isErr acc with
      | some acc2 => acc2
      | none => acc
  | .result c =>
      match c with
      | some v =>
          if v ≠ 0 then acc ++ [⟨.system, "Completed. Cost: $" ++ toFixed6 v, none⟩]
          else acc
      | none => acc
  | .error m => acc ++ [⟨.system, "Error: " ++ m, none⟩]
  | .approvalRequest _ _ => acc
  | .status _ _ => acc

/-- App.tsx `handleHistory`: rebuild the whole transcript of a `history`
frame in one pass, starting from an empty list. -/
def handleHistory (evs : List WSEvent) : List ChatMsg :=
  evs.foldl replayStep []

/-- Live processing of a whole event stream from the initial component state. -/
def processLive (evs : List WSEvent) : LiveState :=
  evs.foldl liveStep .init

/-! ## useWebSocket.ts: status handling, frame decoding, sends -/

/-- types.ts `AgentStatus`. -/
inductive AgentStatus where
  | idle
  | thinking
  | done
  | error
  | interrupted
  deriving DecidableEq, Repr

/-- types.ts `ConnectionStatus`. -/
inductive ConnectionStatus where
  | connecting
  | connected
  | disconnected
  | error
  deriving DecidableEq, Repr

/-- Effect of the STATUS case of useWebSocket `handleMessage`:
the session id stored (when the payload carries one), the agent status set
immediately, the agent status scheduled by `setTimeout(..., 500)` (if any),
and whether the session-cleared callback fires. -/
structure StatusEffect where
  sessionId : Option String
  agentStatus : AgentStatus
  delayedAgentStatus : Option AgentStatus
  sessionCleared : Bool
  deriving DecidableEq, Repr

/-- useWebSocket.ts `handleMessage`, STATUS case.  `sid` is the optional
`session_id` payload field (stored to state and localStorage when present);
`cur` is the current agent status (kept for unknown status strings). -/
def statusCase (status : String) (sid : Option String) (cur : AgentStatus) : StatusEffect :=
  if status = "session_cleared" then ⟨sid, cur, none, true⟩
  else if status = "thinking" then ⟨sid, .thinking, none, false⟩
  else if status = "done" then ⟨sid, .done, some .idle, false⟩
  else if status = "error" then ⟨sid, .error, none, false⟩
  else if status = "interrupted" then ⟨sid, .interrupted, some .idle, false⟩
  else ⟨sid, cur, none, false⟩

/-- App.tsx `pendingApproval` slot content (types.ts `ApprovalRequest`). -/
structure ApprovalReq where
  toolName : String
  toolInput : String
  deriving DecidableEq, Repr

/-- App.tsx `handleApprovalRequest` as a state update of the nullable
`pendingApproval` slot: `setPendingApproval(request)` overwrites whatever
was there. -/
def setPendingApproval (r : ApprovalReq) (_prev : Option ApprovalReq) : Option ApprovalReq :=
  some r

/-- Whole client state touched by an inbound frame: the useWebSocket state
(connection status, agent status with its scheduled follow-up, session id
and its localStorage copy) and the App state (approval slot, transcript). -/
structure ClientState where
  connectionStatus : ConnectionStatus
  agentStatus : AgentStatus
  delayedAgentStatus : Option AgentStatus
  sessionId : Option String
  storedSessionId : Option String
  pendingApproval : Option ApprovalReq
  live : LiveState
  deriving DecidableEq, Repr

/-- useWebSocket.ts `handleMessage` dispatch combined with the App
callbacks it invokes: STATUS updates the agent/session status (and resets
the App state on `session_cleared`), HISTORY rebuilds the transcript,
APPROVAL_REQUEST flushes the streaming buffers and fills the approval
slot, everything else goes to the App live handler.  `history` frames are
represented by applying `handleHistory` to the carried list where this
dispatcher is used; the constructors here are the single-event frames. -/
def dispatchClient (m : WSEvent) (st : ClientState) : ClientState :=
  match m with
  | .status s sid =>
      let eff := statusCase s sid st.agentStatus
      let st2 : ClientState :=
        { st with
          sessionId := match eff.sessionId with | some x => some x | none => st.sessionId
          storedSessionId := match eff.sessionId with | some x => some x | none => st.storedSessionId
          agentStatus := eff.agentStatus
          delayedAgentStatus := eff.delayedAgentStatus }
      if eff.sessionCleared then
        { st2 with live := LiveState.init, pendingApproval := none }
      else st2
  | .approvalRequest n inp =>
      { st with
        live := flushTools (flushAssistant st.live)
        pendingApproval := setPendingApproval ⟨n, inp⟩ st.pendingApproval }
  | _ => { st with live := liveStep st.live m }

/-- useWebSocket.ts `ws.onmessage`: `JSON.parse` inside try/catch.  A frame
that fails to decode (`none`) is dropped with a console log; a decoded
frame goes to `handleMessage`. -/
def onFrame (decoded : Option WSEvent) (st : ClientState) : ClientState :=
  match decoded with
  | none => st
  | some m => dispatchClient m st

/-- Values of `WebSocket.readyState`; `opened` is `WebSocket.OPEN`. -/
inductive WSReady where
  | connecting
  | opened
  | closing
  | closed
  deriving DecidableEq, Repr

/-- Client-originated events built by the send helpers of useWebSocket.ts. -/
inductive ClientOut where
  | userMessage (content : String) (filePaths : Option (List String))
  | approvalResponse (approved : Bool) (reason : Option String)
  | interrupt
  | clearSession
  deriving DecidableEq, Repr

/-- The socket layer as seen by `sendMessage`: the socket ready state plus
the client state it could touch. -/
structure SocketState where
  readyState : WSReady
  client : ClientState
  deriving DecidableEq, Repr

/-- useWebSocket.ts `sendMessage`: serialize and send only when
`wsRef.current?.readyState === WebSocket.OPEN`; otherwise fall through
(no send, no queue, no state change, no exception). The second component
is the list of frames put on the wire. -/
def sendMessage (s : SocketState) (f : ClientOut) : SocketState × List ClientOut :=
  if s.readyState = .opened then (s, [f]) else (s, [])

/-! ## Backend orchestrator, modelled from the spec

The FastAPI backend (`AgentSession`, `SessionManager`, the approval gate)
is described by the repository's architecture document but its Python
source is not among the shipped files; the definitions below are modelled
from the specification text (sections 3, 4.1, 4.2, 5, 8). -/

/-- Spec section 3 `AgentSessionState`. -/
inductive AgentState where
  | idle
  | thinking
  | awaitingApproval
  | interrupted
  | error
  deriving DecidableEq, Repr

/-- Spec section 4.2: the decision an Approval Gate returns. -/
structure Decision where
  approved : Bool
  denyReason : Option String
  deriving DecidableEq, Repr

/-- The backend `PendingApproval` dataclass (architecture document):
`resolved` models whether the `asyncio.Event` has been set. -/
structure PendingApproval where
  toolName : String
  toolInput : String
  resolved : Bool := false
  approved : Bool := false
  modifiedInput : Option String := none
  denyReason : Option String := none
  deriving DecidableEq, Repr

/-- Modelled from the spec: one-shot gate resolution.  Resolving an
already-resolved PendingApproval is a no-op (the first resolution wins);
otherwise the decision is recorded and the waiting task unblocked. -/
def resolvePA (d : Decision) (p : PendingApproval) : PendingApproval :=
  if p.resolved then p
  else { p with resolved := true, approved := d.approved, denyReason := d.denyReason }

/-- Modelled from the spec: the in-memory state of one Agent Session
Orchestrator.  `pendings` is the set of live PendingApprovals (the spec
says at most one may exist; keeping a list makes that an invariant to
prove rather than a typing accident) and `pendingMessage` the single
queued user message. -/
structure Orch where
  state : AgentState
  pendings : List PendingApproval
  pendingMessage : Option String
  deriving DecidableEq, Repr

def Orch.init : Orch := ⟨.idle, [], none⟩

/-- Observable actions of the orchestrator model: engine queries, gate
resolutions, the cancel signal to the engine client, the interrupt issued
on an in-flight turn by a redirect, and emitted status events. -/
inductive Act where
  | query (content : String)
  | resolveApproval (approved : Bool) (denyReason : Option String)
  | cancelEngine
  | interruptTurn
  | emitStatus (s : String)
  deriving DecidableEq, Repr

/-- Modelled from the spec: `handle_interrupt()`.  If the state is idle,
a no-op emitting nothing.  Otherwise: resolve any PendingApproval with
`approved=false, deny_reason="interrupted"`, signal cancellation to the
engine client, emit exactly one `status=interrupted`, return the state to
idle, and dispatch the queued pending message (third component) if one
was stored. -/
def handleInterrupt (o : Orch) : Orch × List Act × Option String :=
  if o.state = .idle then (o, [], none)
  else
    ( { state := .idle, pendings := [], pendingMessage := none },
      (o.pendings.map fun _ => Act.resolveApproval false (some "interrupted"))
        ++ [Act.cancelEngine, Act.emitStatus "interrupted"],
      o.pendingMessage )

/-- Modelled from the spec: `handle_user_message(content)`.  In idle (and
in the transient interrupted/error states, which return to idle after
cleanup) it begins a new turn: submits the query and moves to thinking.
While a turn is in flight (thinking or awaiting approval) it is a
redirect: it stores the message as the single pending message
(superseding any earlier one), issues exactly one interrupt on the
in-flight turn, and returns without blocking. -/
def handleUserMessage (content : String) (o : Orch) : Orch × List Act :=
  match o.state with
  | .thinking | .awaitingApproval =>
      ({ o with pendingMessage := some content }, [Act.interruptTurn])
  | .idle | .interrupted | .error =>
      ({ o with state := .thinking }, [Act.query content, Act.emitStatus "thinking"])

/-- Modelled from the spec: `handle_approval_response(approved, reason)`.
A response with no outstanding PendingApproval (the gate already resolved,
for example by timeout) is ignored; otherwise the gate is resolved with
the operator's decision, the approval destroyed, and the turn resumes
(awaiting_approval to thinking). -/
def handleApprovalResponse (approved : Bool) (reason : Option String) (o : Orch) :
    Orch × List Act :=
  if o.pendings = [] then (o, [])
  else
    ({ o with pendings := [], state := .thinking },
     [Act.resolveApproval approved reason])

/-- Modelled from the spec: the Approval Gate's fixed timeout firing
(no operator response within `approvalTimeoutSeconds`).  The gate resolves
itself as denied with reason "timeout" — an implicit denial, not a fatal
error — destroying the PendingApproval and resuming the turn, and emits a
`status=error` notice. -/
def gateTimeoutFire (o : Orch) : Orch × List Act :=
  if o.pendings = [] then (o, [])
  else
    ({ o with pendings := [], state := .thinking },
     [Act.resolveApproval false (some "timeout"), Act.emitStatus "error"])

/-- Modelled from the spec: configuration surface, approval timeout in
seconds (default 300). -/
def approvalTimeoutSeconds : Nat := 300

/-- Inputs that can hit one session's orchestrator, from the operator
(receive loop), the engine stream, and the gate's timer. -/
inductive OIn where
  | userMsg (content : String)
  | approvalResp (approved : Bool) (reason : Option String)
  | interruptIn
  | engineApprovalReq (toolName toolInput : String)
  | gateTimeout
  | streamDone
  | streamError
  deriving DecidableEq, Repr

/-- Modelled from the spec: one serialized step of the orchestrator (all
state mutations go through a single critical section, so an interleaving
is a sequence of these steps).  `engineApprovalReq` is the engine's
permission callback: the engine requests approvals serially, so a request
creates a PendingApproval only when none is outstanding. -/
def orchStep (o : Orch) (i : OIn) : Orch :=
  match i with
  | .userMsg c => (handleUserMessage c o).1
  | .approvalResp b r => (handleApprovalResponse b r o).1
  | .interruptIn => (handleInterrupt o).1
  | .engineApprovalReq n inp =>
      if o.pendings = [] then
        { o with pendings := [⟨n, inp, false, false, none, none⟩], state := .awaitingApproval }
      else o
  | .gateTimeout => (gateTimeoutFire o).1
  | .streamDone => { o with state := .idle }
  | .streamError => { o with state := .idle }

/-- Run the orchestrator from the initial state over a whole input trace. -/
def runOrch (ins : List OIn) : Orch :=
  ins.foldl orchStep Orch.init

/-- Number of `status=s` events in an action list. -/
def countStatusEvents (s : String) (l : List Act) : Nat :=
  l.countP (fun a => decide (a = Act.emitStatus s))

/-! ## Theorems -/

/-- C7: a frame whose payload does not decode to a well-formed event is
dropped (with a log) by the try/catch in `ws.onmessage`: the whole client
state is untouched and in particular the connection status is unchanged
(the connection is not closed). -/
theorem C7_malformed_frame_dropped (st : ClientState) :
    onFrame none st = st ∧ (onFrame none st).connectionStatus = st.connectionStatus :=
  ⟨rfl, rfl⟩

/-- C8: when the socket is not OPEN, `sendMessage` silently drops the
outbound event: it returns normally with the state unchanged and nothing
queued or written to the wire. -/
theorem C8_send_dropped_when_not_open (s : SocketState) (f : ClientOut)
    (h : s.readyState ≠ .opened) :
    sendMessage s f = (s, []) := by
  simp [sendMessage, h]

theorem C8_send_dropped_when_not_open_witness :
    (SocketState.mk .closed ⟨.disconnected, .idle, none, none, none, none, LiveState.init⟩).readyState
        ≠ .opened ∧
    sendMessage (SocketState.mk .closed ⟨.disconnected, .idle, none, none, none, none, LiveState.init⟩)
        .interrupt
      = (SocketState.mk .closed ⟨.disconnected, .idle, none, none, none, none, LiveState.init⟩, []) :=
  ⟨by decide, C8_send_dropped_when_not_open _ _ (by decide)⟩

/-- C10: a `result` event with an absent or zero `cost` adds no completion
system message — the live handler only flushes its buffers and the replay
leaves the transcript unchanged; a nonzero cost appends exactly one
system message with the cost formatted to six decimal places, in both. -/
theorem C10_result_cost_message (st : LiveState) (acc : List ChatMsg) (v : Rat) :
    liveStep st (.result none) = flushTools (flushAssistant st) ∧
    liveStep st (.result (some 0)) = flushTools (flushAssistant st) ∧
    (v ≠ 0 → liveStep st (.result (some v)) =
      { flushTools (flushAssistant st) with
        msgs := (flushTools (flushAssistant st)).msgs
          ++ [⟨.system, "Completed. Cost: $" ++ toFixed6 v, none⟩] }) ∧
    replayStep acc (.result none) = acc ∧
    replayStep acc (.result (some 0)) = acc ∧
    (v ≠ 0 → replayStep acc (.result (some v))
      = acc ++ [⟨.system, "Completed. Cost: $" ++ toFixed6 v, none⟩]) := by
  refine ⟨rfl, by simp [liveStep], ?_, rfl, by simp [replayStep], ?_⟩
  · intro h
    simp [liveStep, h]
  · intro h
    simp [replayStep, h]

theorem C10_result_cost_message_witness :
    (1 : Rat) ≠ 0 ∧
    liveStep LiveState.init (.result (some 1)) =
      { flushTools (flushAssistant LiveState.init) with
        msgs := (flushTools (flushAssistant LiveState.init)).msgs
          ++ [⟨.system, "Completed. Cost: $" ++ toFixed6 1, none⟩] } ∧
    replayStep [] (.result (some 1)) = [⟨.system, "Completed. Cost: $" ++ toFixed6 1, none⟩] :=
  ⟨by decide,
   (C10_result_cost_message LiveState.init [] 1).2.2.1 (by decide),
   (C10_result_cost_message LiveState.init [] 1).2.2.2.2.2 (by decide)⟩

/-- Folding further resolutions over an already-resolved approval changes
nothing. -/
theorem foldl_resolvePA_resolved (ds : List Decision) (q : PendingApproval)
    (h : q.resolved = true) :
    List.foldl (fun q0 d0 => resolvePA d0 q0) q ds = q := by
  induction ds generalizing q with
  | nil => rfl
  | cons d rest ih =>
      have hq : resolvePA d q = q := by simp [resolvePA, h]
      simp [List.foldl_cons, hq, ih q h]

/-- C5: gate resolution is one-shot.  A resolution applied to an already
resolved PendingApproval is a no-op (no exception, no state change), and
for any sequence of resolutions of a fresh approval the final recorded
decision is exactly the first one applied. -/
theorem C5_first_resolution_wins (p : PendingApproval) (d : Decision) (ds : List Decision) :
    (p.resolved = true → resolvePA d p = p) ∧
    (p.resolved = false →
      List.foldl (fun q0 d0 => resolvePA d0 q0) p (d :: ds) = resolvePA d p) := by
  constructor
  · intro h
    simp [resolvePA, h]
  · intro h
    have hres : (resolvePA d p).resolved = true := by simp [resolvePA, h]
    simp [List.foldl_cons, foldl_resolvePA_resolved ds (resolvePA d p) hres]

theorem C5_first_resolution_wins_witness :
    (PendingApproval.mk "Bash" "ls" false false none none).resolved = false ∧
    List.foldl (fun q0 d0 => resolvePA d0 q0) (PendingApproval.mk "Bash" "ls" false false none none)
        [⟨true, none⟩, ⟨false, some "timeout"⟩]
      = resolvePA ⟨true, none⟩ (PendingApproval.mk "Bash" "ls" false false none none) :=
  ⟨by decide,
   (C5_first_resolution_wins (PendingApproval.mk "Bash" "ls" false false none none)
      ⟨true, none⟩ [⟨false, some "timeout"⟩]).2 (by decide)⟩

/-- C4: the approval timeout behaves exactly like an operator response
`approved:false, reason:"timeout"`: the orchestrator state after the
timeout fires equals the state after such a response, the gate is resolved
as denied with reason "timeout", the timeout never moves the session into
the error state (implicit denial, not a fatal error), and the timeout is
the fixed 300 seconds of the configuration surface. -/
theorem C4_timeout_is_implicit_denial (o : Orch) :
    (gateTimeoutFire o).1 = (handleApprovalResponse false (some "timeout") o).1 ∧
    (o.pendings ≠ [] → Act.resolveApproval false (some "timeout") ∈ (gateTimeoutFire o).2) ∧
    (o.state ≠ .error → (gateTimeoutFire o).1.state ≠ .error) ∧
    approvalTimeoutSeconds = 300 := by
  by_cases h : o.pendings = [] <;>
    simp [gateTimeoutFire, handleApprovalResponse, h, approvalTimeoutSeconds]

theorem C4_timeout_is_implicit_denial_witness :
    (Orch.mk .awaitingApproval [PendingApproval.mk "Bash" "ls" false false none none] none).pendings
        ≠ [] ∧
    Act.resolveApproval false (some "timeout")
      ∈ (gateTimeoutFire
          (Orch.mk .awaitingApproval [PendingApproval.mk "Bash" "ls" false false none none] none)).2 ∧
    (gateTimeoutFire
        (Orch.mk .awaitingApproval [PendingApproval.mk "Bash" "ls" false false none none] none)).1.state
      ≠ .error :=
  ⟨by decide,
   (C4_timeout_is_implicit_denial _).2.1 (by decide),
   (C4_timeout_is_implicit_denial _).2.2.1 (by decide)⟩

/-- C1: an interrupt always settles the session in the idle state.  From a
non-idle state it emits exactly one `status=interrupted`; from idle it is
a no-op emitting nothing.  On the client, a `status` event carrying
`interrupted` sets the displayed agent status to `interrupted` and
schedules the switch back to `idle`. -/
theorem C1_interrupt_settles_idle (o : Orch) (cur : AgentStatus) (sid : Option String) :
    (handleInterrupt o).1.state = .idle ∧
    (o.state ≠ .idle → countStatusEvents "interrupted" (handleInterrupt o).2.1 = 1) ∧
    (o.state = .idle → handleInterrupt o = (o, [], none)) ∧
    (statusCase "interrupted" sid cur).agentStatus = .interrupted ∧
    (statusCase "interrupted" sid cur).delayedAgentStatus = some .idle := by
  refine ⟨?_, ?_, ?_, rfl, rfl⟩
  · by_cases h : o.state = .idle <;> simp [handleInterrupt, h]
  · intro h
    simp [handleInterrupt, h, countStatusEvents, List.countP_append, List.countP_map,
      List.countP_cons]
  · intro h
    simp [handleInterrupt, h]

theorem C1_interrupt_settles_idle_witness :
    (Orch.mk .thinking [] (some "next")).state ≠ .idle ∧
    (handleInterrupt (Orch.mk .thinking [] (some "next"))).1.state = .idle ∧
    countStatusEvents "interrupted" (handleInterrupt (Orch.mk .thinking [] (some "next"))).2.1 = 1 :=
  ⟨by decide,
   (C1_interrupt_settles_idle (Orch.mk .thinking [] (some "next")) .idle none).1,
   (C1_interrupt_settles_idle (Orch.mk .thinking [] (some "next")) .idle none).2.1 (by decide)⟩

/-- C2: a user message arriving while a turn is in flight (thinking or
awaiting approval) is a redirect: the message is stored as the single
pending message, overwriting whatever was queued before; exactly one
interrupt is issued on the in-flight turn and nothing else; the call
returns without starting a turn (state and pending approvals untouched);
and once the interruption completes, `handle_interrupt` dispatches exactly
the queued message. -/
theorem C2_redirect_queues_one_message (o : Orch) (c : String)
    (h : o.state = .thinking ∨ o.state = .awaitingApproval) :
    (handleUserMessage c o).1.pendingMessage = some c ∧
    (handleUserMessage c o).2 = [Act.interruptTurn] ∧
    (handleUserMessage c o).1.state = o.state ∧
    (handleUserMessage c o).1.pendings = o.pendings ∧
    (handleInterrupt (handleUserMessage c o).1).2.2 = some c := by
  obtain ⟨s, ps, pm⟩ := o
  rcases h with h | h <;> subst h <;>
    simp [handleUserMessage, handleInterrupt]

theorem C2_redirect_queues_one_message_witness :
    ((Orch.mk .thinking [] (some "older")).state = .thinking ∨
      (Orch.mk .thinking [] (some "older")).state = .awaitingApproval) ∧
    (handleUserMessage "newer" (Orch.mk .thinking [] (some "older"))).1.pendingMessage
      = some "newer" ∧
    (handleUserMessage "newer" (Orch.mk .thinking [] (some "older"))).2 = [Act.interruptTurn] ∧
    (handleInterrupt (handleUserMessage "newer" (Orch.mk .thinking [] (some "older"))).1).2.2
      = some "newer" :=
  ⟨Or.inl rfl,
   (C2_redirect_queues_one_message _ "newer" (Or.inl rfl)).1,
   (C2_redirect_queues_one_message _ "newer" (Or.inl rfl)).2.1,
   (C2_redirect_queues_one_message _ "newer" (Or.inl rfl)).2.2.2.2⟩

/-- One orchestrator step preserves the bound of at most one live
PendingApproval. -/
theorem orchStep_pendings_le (o : Orch) (i : OIn) (h : o.pendings.length ≤ 1) :
    (orchStep o i).pendings.length ≤ 1 := by
  obtain ⟨s, ps, pm⟩ := o
  cases i with
  | userMsg c => cases s <;> simpa [orchStep, handleUserMessage] using h
  | approvalResp b r =>
      by_cases hp : ps = [] <;> simpa [orchStep, handleApprovalResponse, hp] using h
  | interruptIn =>
      by_cases hs : s = .idle <;> simpa [orchStep, handleInterrupt, hs] using h
  | engineApprovalReq n inp =>
      by_cases hp : ps = [] <;> simpa [orchStep, hp] using h
  | gateTimeout =>
      by_cases hp : ps = [] <;> simpa [orchStep, gateTimeoutFire, hp] using h
  | streamDone => simpa [orchStep] using h
  | streamError => simpa [orchStep] using h

/-- The bound propagates along any input trace. -/
theorem foldl_orchStep_pendings_le (ins : List OIn) (o : Orch) (h : o.pendings.length ≤ 1) :
    (ins.foldl orchStep o).pendings.length ≤ 1 := by
  induction ins generalizing o with
  | nil => simpa using h
  | cons i rest ih => exact ih (orchStep o i) (orchStep_pendings_le o i h)

/-- C3: under every interleaving of operator events, engine stream events
and timeouts, at most one PendingApproval is ever live; while one is
outstanding no step creates a second (a step either keeps it or destroys
it by resolution); and on the client each approval request overwrites the
single nullable `pendingApproval` slot. -/
theorem C3_at_most_one_pending (ins : List OIn) (o : Orch) (i : OIn)
    (r : ApprovalReq) (p : Option ApprovalReq) :
    (runOrch ins).pendings.length ≤ 1 ∧
    (o.pendings.length ≤ 1 → (orchStep o i).pendings.length ≤ 1) ∧
    (o.pendings ≠ [] →
      (orchStep o i).pendings = o.pendings ∨ (orchStep o i).pendings = []) ∧
    setPendingApproval r p = some r := by
  refine ⟨foldl_orchStep_pendings_le ins Orch.init (by simp [Orch.init]),
    orchStep_pendings_le o i, ?_, rfl⟩
  intro hne
  obtain ⟨s, ps, pm⟩ := o
  cases i with
  | userMsg c => cases s <;> simp [orchStep, handleUserMessage]
  | approvalResp b r0 => simp [orchStep, handleApprovalResponse, hne]
  | interruptIn => by_cases hs : s = .idle <;> simp [orchStep, handleInterrupt, hs]
  | engineApprovalReq n inp => simp [orchStep, hne]
  | gateTimeout => simp [orchStep, gateTimeoutFire, hne]
  | streamDone => simp [orchStep]
  | streamError => simp [orchStep]

theorem C3_at_most_one_pending_witness :
    (runOrch [.userMsg "hi", .engineApprovalReq "Bash" "ls",
        .engineApprovalReq "Write" "x"]).pendings.length ≤ 1 ∧
    (Orch.mk .awaitingApproval [PendingApproval.mk "Bash" "ls" false false none none] none).pendings
        ≠ [] ∧
    ((orchStep (Orch.mk .awaitingApproval [PendingApproval.mk "Bash" "ls" false false none none] none)
        .gateTimeout).pendings
      = (Orch.mk .awaitingApproval [PendingApproval.mk "Bash" "ls" false false none none] none).pendings ∨
     (orchStep (Orch.mk .awaitingApproval [PendingApproval.mk "Bash" "ls" false false none none] none)
        .gateTimeout).pendings = []) :=
  ⟨(C3_at_most_one_pending [.userMsg "hi", .engineApprovalReq "Bash" "ls",
      .engineApprovalReq "Write" "x"] Orch.init .streamDone ⟨"", ""⟩ none).1,
   by decide,
   (C3_at_most_one_pending []
      (Orch.mk .awaitingApproval [PendingApproval.mk "Bash" "ls" false false none none] none)
      .gateTimeout ⟨"", ""⟩ none).2.2.1 (by decide)⟩

/-- Updating a tool list where nothing matches changes nothing. -/
theorem map_applyToolResult_noMatch (id res : String) (isErr : Bool) (l : List ToolCall)
    (h : ∀ t ∈ l, t.id ≠ id) :
    l.map (applyToolResult id res isErr) = l := by
  induction l with
  | nil => rfl
  | cons t rest ih =>
      have ht : applyToolResult id res isErr t = t := by
        simp [applyToolResult, h t (by simp)]
      simp only [List.map_cons, ht, ih (fun u hu => h u (by simp [hu]))]

/-- The replay inner search fails on a call list with no matching id. -/
theorem replayUpdCalls_none (id res : String) (isErr : Bool) (l : List ToolCall)
    (h : ∀ t ∈ l, t.id ≠ id) :
    replayUpdCalls id res isErr l = none := by
  induction l with
  | nil => rfl
  | cons t rest ih =>
      simp [replayUpdCalls, h t (by simp), ih (fun u hu => h u (by simp [hu]))]

/-- The replay message search fails when no displayed tool call matches. -/
theorem replayUpdMsgs_none (id res : String) (isErr : Bool) (R : List ChatMsg)
    (h : ∀ m ∈ R, ∀ t ∈ m.toolCalls.getD [], t.id ≠ id) :
    replayUpdMsgs id res isErr R = none := by
  induction R with
  | nil => rfl
  | cons m rest ih =>
      have hrest : replayUpdMsgs id res isErr rest = none :=
        ih (fun m0 hm0 => h m0 (by simp [hm0]))
      by_cases hr : m.role = .tool
      · cases hc : m.toolCalls with
        | none => simp [replayUpdMsgs, hrest, hr, hc]
        | some calls =>
            have : replayUpdCalls id res isErr calls = none := by
              apply replayUpdCalls_none
              have := h m (by simp)
              simpa [hc] using this
            simp [replayUpdMsgs, hrest, hr, hc, this]
      · simp [replayUpdMsgs, hrest, hr]

/-- When the inner search succeeds, the call list keeps its length and
every call whose id differs from the matched one is unchanged in place. -/
theorem replayUpdCalls_some_frame (id res : String) (isErr : Bool) :
    ∀ (l l2 : List ToolCall), replayUpdCalls id res isErr l = some l2 →
      l2.length = l.length ∧
      ∀ (i : Nat) (d : ToolCall),
        (l.getD i d).id ≠ id → l2.getD i d = l.getD i d := by
  intro l
  induction l with
  | nil => intro l2 hl2; simp [replayUpdCalls] at hl2
  | cons t rest ih =>
      intro l2 hl2
      by_cases ht : t.id = id
      · simp only [replayUpdCalls, if_pos ht, Option.some.injEq] at hl2
        subst hl2
        refine ⟨by simp, ?_⟩
        intro i d hdiff
        cases i with
        | zero => exact absurd ht (by simpa using hdiff)
        | succ j => rfl
      · cases hr2 : replayUpdCalls id res isErr rest with
        | none => simp [replayUpdCalls, if_neg ht, hr2] at hl2
        | some r2 =>
            simp only [replayUpdCalls, if_neg ht, hr2, Option.map_some',
              Option.some.injEq] at hl2
            subst hl2
            obtain ⟨hlen, hget⟩ := ih r2 hr2
            refine ⟨by simp [hlen], ?_⟩
            intro i d hdiff
            cases i with
            | zero => rfl
            | succ j => exact hget j d (by simpa using hdiff)

/-- When the replay message search succeeds, the transcript keeps its
length and every message containing no call with the matched id is
unchanged in place. -/
theorem replayUpdMsgs_some_frame (id res : String) (isErr : Bool) :
    ∀ (R R2 : List ChatMsg), replayUpdMsgs id res isErr R = some R2 →
      R2.length = R.length ∧
      ∀ (i : Nat) (d : ChatMsg),
        (∀ t ∈ (R.getD i d).toolCalls.getD [], t.id ≠ id) →
        R2.getD i d = R.getD i d := by
  intro R
  induction R with
  | nil => intro R2 hR2; simp [replayUpdMsgs] at hR2
  | cons m rest ih =>
      intro R2 hR2
      cases hrest : replayUpdMsgs id res isErr rest with
      | some rest2 =>
          simp only [replayUpdMsgs, hrest, Option.some.injEq] at hR2
          subst hR2
          obtain ⟨hlen, hget⟩ := ih rest2 hrest
          refine ⟨by simp [hlen], ?_⟩
          intro i d hno
          cases i with
          | zero => rfl
          | succ j => exact hget j d (by simpa using hno)
      | none =>
          by_cases hr : m.role = .tool
          · cases hc : m.toolCalls with
            | none => simp [replayUpdMsgs, hrest, hr, hc] at hR2
            | some calls =>
                cases hcalls : replayUpdCalls id res isErr calls with
                | none => simp [replayUpdMsgs, hrest, hr, hc, hcalls] at hR2
                | some calls2 =>
                    simp only [replayUpdMsgs, hrest, hr, if_pos, hc, hcalls,
                      Option.map_some', Option.some.injEq] at hR2
                    subst hR2
                    refine ⟨by simp, ?_⟩
                    intro i d hno
                    cases i with
                    | zero =>
                        exfalso
                        have : replayUpdCalls id res isErr calls = none := by
                          apply replayUpdCalls_none
                          simpa [hc] using hno
                        simp [this] at hcalls
                    | succ j => rfl
          · simp [replayUpdMsgs, hrest, hr] at hR2

/-- C9: a `tool_result` whose id matches no displayed tool call leaves the
state untouched, both in the live handler (which only looks at the
in-progress tool buffer) and in history replay; when it matches, the
committed messages, the transcript length, and every tool call and
message not carrying the matched id are unchanged. -/
theorem C9_tool_result_frame (id res : String) (isErr : Bool) (st : LiveState)
    (acc : List ChatMsg) :
    ((∀ t ∈ st.curTools, t.id ≠ id) → liveStep st (.toolResult id res isErr) = st) ∧
    (liveStep st (.toolResult id res isErr)).msgs = st.msgs ∧
    (liveStep st (.toolResult id res isErr)).curTools
      = st.curTools.map (applyToolResult id res isErr) ∧
    (∀ t : ToolCall, t.id ≠ id → applyToolResult id res isErr t = t) ∧
    ((∀ m ∈ acc, ∀ t ∈ m.toolCalls.getD [], t.id ≠ id) →
      replayStep acc (.toolResult id res isErr) = acc) ∧
    (replayStep acc (.toolResult id res isErr)).length = acc.length ∧
    (∀ (i : Nat) (d : ChatMsg),
      (∀ t ∈ (acc.getD i d).toolCalls.getD [], t.id ≠ id) →
      (replayStep acc (.toolResult id res isErr)).getD i d = acc.getD i d) ∧
    (∀ (calls calls2 : List ToolCall), replayUpdCalls id res isErr calls = some calls2 →
      ∀ (i : Nat) (d : ToolCall),
        (calls.getD i d).id ≠ id → calls2.getD i d = calls.getD i d) := by
  refine ⟨?_, rfl, rfl, ?_, ?_, ?_, ?_, ?_⟩
  · intro h
    have : st.curTools.map (applyToolResult id res isErr) = st.curTools :=
      map_applyToolResult_noMatch id res isErr st.curTools h
    simp [liveStep, this]
  · intro t ht
    simp [applyToolResult, ht]
  · intro h
    simp [replayStep, replayUpdMsgs_none id res isErr acc h]
  · cases hm : replayUpdMsgs id res isErr acc with
    | some acc2 => simp [replayStep, hm, (replayUpdMsgs_some_frame id res isErr acc acc2 hm).1]
    | none => simp [replayStep, hm]
  · intro i d hno
    cases hm : replayUpdMsgs id res isErr acc with
    | some acc2 =>
        have hstep : replayStep acc (.toolResult id res isErr) = acc2 := by
          simp [replayStep, hm]
        rw [hstep]
        exact (replayUpdMsgs_some_frame id res isErr acc acc2 hm).2 i d hno
    | none => simp [replayStep, hm]
  · intro calls calls2 hcalls2
    exact (replayUpdCalls_some_frame id res isErr calls calls2 hcalls2).2

theorem C9_tool_result_frame_witness :
    (∀ t ∈ (LiveState.mk [] "" [ToolCall.mk "a" "Bash" "ls" .running none none]).curTools,
        t.id ≠ "zz") ∧
    liveStep (LiveState.mk [] "" [ToolCall.mk "a" "Bash" "ls" .running none none])
        (.toolResult "zz" "ok" false)
      = LiveState.mk [] "" [ToolCall.mk "a" "Bash" "ls" .running none none] ∧
    replayStep [ChatMsg.mk .tool "" (some [ToolCall.mk "a" "Bash" "ls" .running none none])]
        (.toolResult "zz" "ok" false)
      = [ChatMsg.mk .tool "" (some [ToolCall.mk "a" "Bash" "ls" .running none none])] :=
  ⟨by decide,
   (C9_tool_result_frame "zz" "ok" false
      (LiveState.mk [] "" [ToolCall.mk "a" "Bash" "ls" .running none none]) []).1 (by decide),
   (C9_tool_result_frame "zz" "ok" false LiveState.init
      [ChatMsg.mk .tool "" (some [ToolCall.mk "a" "Bash" "ls" .running none none])]).2.2.2.2.1
      (by decide)⟩

/-! ## C6: history replay versus live processing -/

/-- The ids of a list of tool calls, in order. -/
def toolIds (l : List ToolCall) : List String :=
  l.map ToolCall.id

/-- Event streams on which history replay and live processing agree:
display events only (no `user_message`, `approval_request` or `status`),
assistant text with at least one non-whitespace character, `result` events
with a truthy cost, tool-use ids never reused, and every `tool_result`
matching a tool call of the currently open (unflushed) tool group.
`openIds` tracks the ids of the open group, `used` all ids seen so far. -/
def wfReplayEvents : List WSEvent → List String → List String → Bool
  | [], _, _ => true
  | e :: rest, openIds, used =>
    match e with
    | .assistantText t => hasNonWS t && wfReplayEvents rest [] used
    | .thinking _ => wfReplayEvents rest [] used
    | .error _ => wfReplayEvents rest [] used
    | .result c => costTruthy c && wfReplayEvents rest [] used
    | .toolUse id _ _ =>
        !(decide (id ∈ used)) && wfReplayEvents rest (openIds ++ [id]) (id :: used)
    | .toolResult id _ _ => decide (id ∈ openIds) && wfReplayEvents rest openIds used
    | _ => false

/-- The last committed message is neither a bare assistant message nor a
tool group (so replay will not merge into it). -/
def lastRoleOk (msgs : List ChatMsg) : Prop :=
  match msgs.getLast? with
  | none => True
  | some m => m.role ≠ .assistant ∧ m.role ≠ .tool

/-- Simulation invariant between the live component state and the replay
bookkeeping: a nonempty text buffer is non-blank and excludes an open tool
group; the open group's ids are exactly `openIds`, which are distinct and
among the `used` ids; and when both buffers are empty the last committed
message is not mergeable. -/
def liveInv (st : LiveState) (openIds used : List String) : Prop :=
  (st.curText ≠ "" → hasNonWS st.curText = true ∧ st.curTools = []) ∧
  toolIds st.curTools = openIds ∧
  openIds.Nodup ∧
  (∀ x ∈ openIds, x ∈ used) ∧
  (st.curText = "" → st.curTools = [] → lastRoleOk st.msgs)

theorem hasNonWS_append (s t : String) : hasNonWS (s ++ t) = (hasNonWS s || hasNonWS t) := by
  simp [hasNonWS, String.data_append, List.any_append]

theorem hasNonWS_ne_empty (s : String) (h : hasNonWS s = true) : s ≠ "" := by
  intro he
  subst he
  simp [hasNonWS] at h

/-- Flushing both buffers commits exactly what the component renders. -/
theorem flushBoth_msgs (st : LiveState) (openIds used : List String)
    (hinv : liveInv st openIds used) :
    (flushTools (flushAssistant st)).msgs = renderLive st ∧
    (flushTools (flushAssistant st)).curText = "" ∧
    (flushTools (flushAssistant st)).curTools = [] := by
  obtain ⟨hmutex, _, _, _, _⟩ := hinv
  obtain ⟨msgs, cur, tools⟩ := st
  by_cases hcur : cur = ""
  · subst hcur
    by_cases htools : tools = []
    · subst htools
      simp [flushAssistant, flushTools, renderLive, hasNonWS]
    · simp [flushAssistant, flushTools, renderLive, hasNonWS, htools]
  · obtain ⟨hnws, htools⟩ := hmutex hcur
    subst htools
    simp [flushAssistant, flushTools, renderLive, hnws, hcur]

/-- Updating a tool call keeps its id. -/
theorem applyToolResult_id (id res : String) (isErr : Bool) (t : ToolCall) :
    (applyToolResult id res isErr t).id = t.id := by
  by_cases h : t.id = id <;> simp [applyToolResult, h]

/-- Updating a tool list keeps its ids. -/
theorem toolIds_map_applyToolResult (id res : String) (isErr : Bool) (l : List ToolCall) :
    toolIds (l.map (applyToolResult id res isErr)) = toolIds l := by
  induction l with
  | nil => rfl
  | cons t rest ih => simpa [toolIds, applyToolResult_id] using ih

/-- With distinct ids and a match present, the replay inner search agrees
with the live map-update. -/
theorem replayUpdCalls_eq_map (id res : String) (isErr : Bool) (l : List ToolCall)
    (hnd : (toolIds l).Nodup) (hmem : id ∈ toolIds l) :
    replayUpdCalls id res isErr l = some (l.map (applyToolResult id res isErr)) := by
  induction l with
  | nil => simp [toolIds] at hmem
  | cons t rest ih =>
      rw [show toolIds (t :: rest) = t.id :: toolIds rest from rfl] at hnd hmem
      by_cases ht : t.id = id
      · have hnotin : ∀ u ∈ rest, u.id ≠ id := by
          intro u hu he
          apply (List.nodup_cons.mp hnd).1
          rw [ht, ← he]
          exact List.mem_map_of_mem ToolCall.id hu
        have hrest : rest.map (applyToolResult id res isErr) = rest :=
          map_applyToolResult_noMatch id res isErr rest hnotin
        simp [replayUpdCalls, ht, applyToolResult, hrest]
      · have hmem2 : id ∈ toolIds rest := by
          rcases List.mem_cons.mp hmem with h | h
          · exact absurd h.symm ht
          · exact h
        have hnd2 : (toolIds rest).Nodup := (List.nodup_cons.mp hnd).2
        simp [replayUpdCalls, ht, ih hnd2 hmem2, applyToolResult]

/-- The replay backward search over `xs ++ [m]` finds the last message
first. -/
theorem replayUpdMsgs_concat_found (id res : String) (isErr : Bool)
    (xs : List ChatMsg) (m m2 : ChatMsg)
    (h : replayUpdMsgs id res isErr [m] = some [m2]) :
    replayUpdMsgs id res isErr (xs ++ [m]) = some (xs ++ [m2]) := by
  induction xs with
  | nil => simpa using h
  | cons x rest ih => simp [replayUpdMsgs, ih]

/-- Appending one non-mergeable message to empty buffers restores the
simulation invariant with no open tool group. -/
theorem liveInv_after_append (X : List ChatMsg) (m : ChatMsg) (used : List String)
    (h1 : m.role ≠ .assistant) (h2 : m.role ≠ .tool) :
    liveInv ⟨X ++ [m], "", []⟩ [] used := by
  refine ⟨fun h => absurd rfl h, rfl, List.nodup_nil, by simp, fun _ _ => ?_⟩
  simp [lastRoleOk, List.getLast?_concat, h1, h2]

/-- Flushing both buffers and appending one message lands on the rendered
transcript plus that message. -/
theorem liveStep_append_shape (st : LiveState) (openIds used : List String)
    (hinv : liveInv st openIds used) (m : ChatMsg) :
    ({ flushTools (flushAssistant st) with
        msgs := (flushTools (flushAssistant st)).msgs ++ [m] } : LiveState)
      = ⟨renderLive st ++ [m], "", []⟩ := by
  obtain ⟨hm, hct, hcl⟩ := flushBoth_msgs st openIds used hinv
  cases hF : flushTools (flushAssistant st) with
  | mk M C T =>
      rw [hF] at hm hct hcl
      simp only at hm hct hcl
      subst hm
      subst hct
      subst hcl
      rfl

/-- One assistant-text event commutes between replay and live rendering. -/
theorem sim_assistantText (st : LiveState) (openIds used : List String) (t : String)
    (ht : hasNonWS t = true) (hinv : liveInv st openIds used) :
    replayStep (renderLive st) (.assistantText t)
      = renderLive (liveStep st (.assistantText t)) ∧
    liveInv (liveStep st (.assistantText t)) [] used := by
  obtain ⟨hmutex, hids, hnodup, hsub, hlast⟩ := hinv
  obtain ⟨msgs, cur, tools⟩ := st
  have htne : t ≠ "" := hasNonWS_ne_empty t ht
  by_cases hcur : cur = ""
  · subst hcur
    by_cases htools : tools = []
    · subst htools
      have hstate : liveStep ⟨msgs, "", []⟩ (.assistantText t) = ⟨msgs, t, []⟩ := by
        simp [liveStep, flushTools]
      rw [hstate]
      constructor
      · have hlr := hlast rfl rfl
        cases hml : msgs.getLast? with
        | none => simp [replayStep, renderLive, hml, htne]
        | some mm =>
            have hmm : mm.role ≠ .assistant := by
              have h0 := hlr
              simp [lastRoleOk, hml] at h0
              exact h0.1
            simp [replayStep, renderLive, hml, hmm, htne]
      · exact ⟨fun _ => ⟨ht, rfl⟩, rfl, List.nodup_nil, by simp, fun hc _ => absurd hc htne⟩
    · have hstate : liveStep ⟨msgs, "", tools⟩ (.assistantText t)
          = ⟨msgs ++ [⟨.tool, "", some tools⟩], t, []⟩ := by
        simp [liveStep, flushTools, htools]
      rw [hstate]
      constructor
      · simp [replayStep, renderLive, htools, htne, List.getLast?_concat]
      · exact ⟨fun _ => ⟨ht, rfl⟩, rfl, List.nodup_nil, by simp, fun hc _ => absurd hc htne⟩
  · obtain ⟨hnws, htools⟩ := hmutex hcur
    subst htools
    have hstate : liveStep ⟨msgs, cur, []⟩ (.assistantText t) = ⟨msgs, cur ++ t, []⟩ := by
      simp [liveStep, flushTools]
    rw [hstate]
    have hcatne : cur ++ t ≠ "" := by
      apply hasNonWS_ne_empty
      rw [hasNonWS_append, hnws]
      rfl
    constructor
    · simp [replayStep, renderLive, hcur, hcatne, List.getLast?_concat, List.dropLast_concat]
    · refine ⟨fun _ => ⟨?_, rfl⟩, rfl, List.nodup_nil, by simp, fun hc _ => absurd hc hcatne⟩
      rw [hasNonWS_append, hnws]
      rfl

/-- One tool-use event commutes between replay and live rendering. -/
theorem sim_toolUse (st : LiveState) (openIds used : List String) (id name input : String)
    (hid : id ∉ used) (hinv : liveInv st openIds used) :
    replayStep (renderLive st) (.toolUse id name input)
      = renderLive (liveStep st (.toolUse id name input)) ∧
    liveInv (liveStep st (.toolUse id name input)) (openIds ++ [id]) (id :: used) := by
  obtain ⟨hmutex, hids, hnodup, hsub, hlast⟩ := hinv
  obtain ⟨msgs, cur, tools⟩ := st
  by_cases hcur : cur = ""
  · subst hcur
    by_cases htools : tools = []
    · subst htools
      have hop : openIds = [] := by simpa [toolIds] using hids.symm
      subst hop
      have hstate : liveStep ⟨msgs, "", []⟩ (.toolUse id name input)
          = ⟨msgs, "", [⟨id, name, input, .running, none, none⟩]⟩ := by
        simp [liveStep, flushAssistant, hasNonWS]
      rw [hstate]
      constructor
      · have hlr := hlast rfl rfl
        cases hml : msgs.getLast? with
        | none => simp [replayStep, renderLive, hml]
        | some mm =>
            have hmm : mm.role ≠ .tool := by
              have h0 := hlr
              simp [lastRoleOk, hml] at h0
              exact h0.2
            simp [replayStep, renderLive, hml, hmm]
      · exact ⟨fun h => absurd rfl h, by simp [toolIds], by simp, by simp,
          fun _ hc => by simp at hc⟩
    · have hstate : liveStep ⟨msgs, "", tools⟩ (.toolUse id name input)
          = ⟨msgs, "", tools ++ [⟨id, name, input, .running, none, none⟩]⟩ := by
        simp [liveStep, flushAssistant, hasNonWS]
      rw [hstate]
      constructor
      · simp [replayStep, renderLive, htools, List.getLast?_concat, List.dropLast_concat]
      · refine ⟨fun h => absurd rfl h, ?_, ?_, ?_, fun _ hc => by simp at hc⟩
        · simp [toolIds] at hids ⊢
          rw [hids]
        · have hnin : id ∉ openIds := fun hmem => hid (hsub id hmem)
          simp [List.nodup_append, hnodup, hnin]
        · intro x hx
          rcases List.mem_append.mp hx with h | h
          · exact List.mem_cons_of_mem _ (hsub x h)
          · simp at h
            subst h
            exact List.mem_cons_self _ _
  · obtain ⟨hnws, htools⟩ := hmutex hcur
    subst htools
    have hop : openIds = [] := by simpa [toolIds] using hids.symm
    subst hop
    have hstate : liveStep ⟨msgs, cur, []⟩ (.toolUse id name input)
        = ⟨msgs ++ [⟨.assistant, cur, none⟩], "",
            [⟨id, name, input, .running, none, none⟩]⟩ := by
      simp [liveStep, flushAssistant, hnws]
    rw [hstate]
    constructor
    · simp [replayStep, renderLive, hcur, List.getLast?_concat]
    · exact ⟨fun h => absurd rfl h, by simp [toolIds], by simp, by simp,
        fun _ hc => by simp at hc⟩

/-- One tool-result event commutes between replay and live rendering. -/
theorem sim_toolResult (st : LiveState) (openIds used : List String) (id res : String)
    (isErr : Bool) (hidmem : id ∈ openIds) (hinv : liveInv st openIds used) :
    replayStep (renderLive st) (.toolResult id res isErr)
      = renderLive (liveStep st (.toolResult id res isErr)) ∧
    liveInv (liveStep st (.toolResult id res isErr)) openIds used := by
  obtain ⟨hmutex, hids, hnodup, hsub, hlast⟩ := hinv
  obtain ⟨msgs, cur, tools⟩ := st
  have hmem : id ∈ toolIds tools := by rw [hids]; exact hidmem
  have htools : tools ≠ [] := by
    intro h
    subst h
    simp [toolIds] at hmem
  have hcur : cur = "" := by
    by_contra hc
    exact htools (hmutex hc).2
  subst hcur
  have hndids : (toolIds tools).Nodup := by rw [hids]; exact hnodup
  have hcalls := replayUpdCalls_eq_map id res isErr tools hndids hmem
  have hone : replayUpdMsgs id res isErr [⟨.tool, "", some tools⟩]
      = some [⟨.tool, "", some (tools.map (applyToolResult id res isErr))⟩] := by
    simp [replayUpdMsgs, hcalls]
  have hstate : liveStep ⟨msgs, "", tools⟩ (.toolResult id res isErr)
      = ⟨msgs, "", tools.map (applyToolResult id res isErr)⟩ := rfl
  rw [hstate]
  have hmapne : tools.map (applyToolResult id res isErr) ≠ [] := by
    simp [htools]
  constructor
  · have hrender : renderLive ⟨msgs, "", tools⟩ = msgs ++ [⟨.tool, "", some tools⟩] := by
      simp [renderLive, htools]
    rw [hrender]
    have hfull := replayUpdMsgs_concat_found id res isErr msgs _ _ hone
    simp [replayStep, hfull, renderLive, hmapne]
  · refine ⟨fun h => absurd rfl h, ?_, hnodup, hsub, fun _ hc => absurd hc hmapne⟩
    rw [toolIds_map_applyToolResult, hids]

theorem liveInv_init : liveInv LiveState.init [] [] :=
  ⟨fun h => absurd rfl h, rfl, List.nodup_nil, by simp, fun _ _ => trivial⟩

/-- Simulation: over any well-formed display-event stream, replay from the
rendered transcript tracks live processing step by step. -/
theorem replay_sim (evs : List WSEvent) :
    ∀ (st : LiveState) (openIds used : List String),
      wfReplayEvents evs openIds used = true →
      liveInv st openIds used →
      List.foldl replayStep (renderLive st) evs
        = renderLive (List.foldl liveStep st evs) := by
  induction evs with
  | nil => intro st o u _ _; rfl
  | cons e rest ih =>
      intro st openIds used hwf hinv
      rw [List.foldl_cons, List.foldl_cons]
      cases e with
      | userMessage c => simp [wfReplayEvents] at hwf
      | approvalRequest n i => simp [wfReplayEvents] at hwf
      | status s sid => simp [wfReplayEvents] at hwf
      | assistantText t =>
          simp only [wfReplayEvents, Bool.and_eq_true] at hwf
          obtain ⟨hcom, hinv2⟩ := sim_assistantText st openIds used t hwf.1 hinv
          rw [hcom]
          exact ih _ [] used hwf.2 hinv2
      | thinking t =>
          simp only [wfReplayEvents] at hwf
          have hstep : liveStep st (.thinking t)
              = ⟨renderLive st ++ [⟨.thinking, t, none⟩], "", []⟩ := by
            simp only [liveStep]
            exact liveStep_append_shape st openIds used hinv _
          have hrep : replayStep (renderLive st) (.thinking t)
              = renderLive st ++ [⟨.thinking, t, none⟩] := rfl
          rw [hrep, hstep]
          have hmain := ih (⟨renderLive st ++ [⟨.thinking, t, none⟩], "", []⟩ : LiveState)
            [] used hwf (liveInv_after_append _ _ used (by simp) (by simp))
          have hr2 : renderLive (⟨renderLive st ++ [⟨.thinking, t, none⟩], "", []⟩ : LiveState)
              = renderLive st ++ [⟨.thinking, t, none⟩] := by
            simp [renderLive]
          rw [hr2] at hmain
          exact hmain
      | error m =>
          simp only [wfReplayEvents] at hwf
          have hstep : liveStep st (.error m)
              = ⟨renderLive st ++ [⟨.system, "Error: " ++ m, none⟩], "", []⟩ := by
            simp only [liveStep]
            exact liveStep_append_shape st openIds used hinv _
          have hrep : replayStep (renderLive st) (.error m)
              = renderLive st ++ [⟨.system, "Error: " ++ m, none⟩] := rfl
          rw [hrep, hstep]
          have hmain := ih (⟨renderLive st ++ [⟨.system, "Error: " ++ m, none⟩], "", []⟩ : LiveState)
            [] used hwf (liveInv_after_append _ _ used (by simp) (by simp))
          have hr2 : renderLive
                (⟨renderLive st ++ [⟨.system, "Error: " ++ m, none⟩], "", []⟩ : LiveState)
              = renderLive st ++ [⟨.system, "Error: " ++ m, none⟩] := by
            simp [renderLive]
          rw [hr2] at hmain
          exact hmain
      | result c =>
          simp only [wfReplayEvents, Bool.and_eq_true] at hwf
          obtain ⟨hct, hwf2⟩ := hwf
          cases c with
          | none => simp [costTruthy] at hct
          | some v =>
              have hv : v ≠ 0 := by simpa [costTruthy] using hct
              have hstep : liveStep st (.result (some v))
                  = ⟨renderLive st
                      ++ [⟨.system, "Completed. Cost: $" ++ toFixed6 v, none⟩], "", []⟩ := by
                simp only [liveStep]
                rw [if_pos hv]
                exact liveStep_append_shape st openIds used hinv _
              have hrep : replayStep (renderLive st) (.result (some v))
                  = renderLive st ++ [⟨.system, "Completed. Cost: $" ++ toFixed6 v, none⟩] := by
                simp [replayStep, hv]
              rw [hrep, hstep]
              have hmain := ih
                (⟨renderLive st ++ [⟨.system, "Completed. Cost: $" ++ toFixed6 v, none⟩],
                    "", []⟩ : LiveState)
                [] used hwf2 (liveInv_after_append _ _ used (by simp) (by simp))
              have hr2 : renderLive
                    (⟨renderLive st ++ [⟨.system, "Completed. Cost: $" ++ toFixed6 v, none⟩],
                        "", []⟩ : LiveState)
                  = renderLive st
                      ++ [⟨.system, "Completed. Cost: $" ++ toFixed6 v, none⟩] := by
                simp [renderLive]
              rw [hr2] at hmain
              exact hmain
      | toolUse id name input =>
          simp only [wfReplayEvents, Bool.and_eq_true, Bool.not_eq_true',
            decide_eq_false_iff_not] at hwf
          obtain ⟨hid, hwf2⟩ := hwf
          obtain ⟨hcom, hinv2⟩ := sim_toolUse st openIds used id name input hid hinv
          rw [hcom]
          exact ih _ _ _ hwf2 hinv2
      | toolResult id res isErr =>
          simp only [wfReplayEvents, Bool.and_eq_true, decide_eq_true_eq] at hwf
          obtain ⟨hmem, hwf2⟩ := hwf
          obtain ⟨hcom, hinv2⟩ := sim_toolResult st openIds used id res isErr hmem hinv
          rw [hcom]
          exact ih _ _ _ hwf2 hinv2

/-- C6 (amended): for every stream of display events — assistant text with
some non-whitespace character, thinking, tool uses with fresh ids, tool
results matching a call of the currently open tool group, errors, and
results with truthy cost — rebuilding the transcript by a single history
replay yields exactly the message list produced by feeding the same
events one at a time through the live handler and rendering its pending
buffers.  (As originally stated the claim fails: see the
counterexample for `user_message`, zero-cost `result`, and late
`tool_result` events.) -/
theorem C6_replay_equals_live_on_wf (evs : List WSEvent)
    (hwf : wfReplayEvents evs [] [] = true) :
    handleHistory evs = renderLive (processLive evs) := by
  have h := replay_sim evs LiveState.init [] [] hwf liveInv_init
  simpa [handleHistory, processLive, renderLive, LiveState.init] using h

theorem C6_replay_equals_live_on_wf_witness :
    wfReplayEvents [.assistantText "hello", .toolUse "t1" "Bash" "ls",
        .toolResult "t1" "done" false, .thinking "hm", .result (some 1)] [] [] = true ∧
    handleHistory [.assistantText "hello", .toolUse "t1" "Bash" "ls",
        .toolResult "t1" "done" false, .thinking "hm", .result (some 1)]
      = renderLive (processLive [.assistantText "hello", .toolUse "t1" "Bash" "ls",
          .toolResult "t1" "done" false, .thinking "hm", .result (some 1)]) :=
  ⟨by decide, C6_replay_equals_live_on_wf _ (by decide)⟩

/-- C6 counterexample: replay and the live handler disagree on streams as
originally claimed.  A `user_message` event appears in replay but the live
handler ignores it; a zero-cost `result` makes replay merge assistant text
across the turn boundary while the live handler splits it; and a
`tool_result` arriving after its tool group was flushed is applied by
replay but missed by the live handler. -/
theorem C6_replay_vs_live_counterexample :
    ¬ (handleHistory [.userMessage "hi"]
        = renderLive (processLive [.userMessage "hi"])) ∧
    ¬ (handleHistory [.assistantText "a", .result (some 0), .assistantText "b"]
        = renderLive (processLive
            [.assistantText "a", .result (some 0), .assistantText "b"])) ∧
    ¬ (handleHistory
          [.toolUse "t1" "Bash" "ls", .assistantText "x", .toolResult "t1" "ok" false]
        = renderLive (processLive
            [.toolUse "t1" "Bash" "ls", .assistantText "x", .toolResult "t1" "ok" false])) := by
  refine ⟨by decide, by decide, by decide⟩

end AgentWeb
